import Mathlib

/-!
Verification of the md2cv structural parser core and the rirekisho data
builder.  The parser module itself ships only with its unit tests, so its
operations are modelled from the design document (each such definition says
so in its doc comment); `findSectionByTag` and `buildHistoryData` are
embedded from the TypeScript sources `src/types/sections.ts` and the
rirekisho data module.
-/

namespace Md2cv

/-- Zero-based position, the `Position {line, character}` of the data model. -/
structure Pos where
  line : Nat
  character : Nat
deriving Repr, DecidableEq

/-- Range with inclusive `start` and `stop` positions.  The source field is
named `end`, which is a keyword in Lean, hence `stop`. -/
structure Range where
  start : Pos
  stop : Pos
deriving Repr, DecidableEq

/-- Engine-native 1-based point, as produced by the external markdown AST
library (`{line, column}`). -/
structure Point where
  line : Nat
  column : Nat
deriving Repr, DecidableEq

/-- Engine-native span of two 1-based points.  The source field is named
`end`, which is a keyword in Lean, hence `stop`. -/
structure Span where
  start : Point
  stop : Point
deriving Repr, DecidableEq

/-- Modelled from the spec (the Position Mapper of the missing module
`src/parser/lsp.ts`): `toPosition(point | undefined) → Position`; undefined
maps to (0,0), a point maps to (line−1, column−1).  Subtraction on `Nat`
truncates at zero, which realises the spec's "never negative". -/
def toPosition : Option Point → Pos
  | none => ⟨0, 0⟩
  | some p => ⟨p.line - 1, p.column - 1⟩

/-- Modelled from the spec (Position Mapper of the missing module
`src/parser/lsp.ts`): `toRange(span | undefined) → Range`; undefined maps to
the zero range, otherwise both endpoints go through `toPosition`. -/
def toRange : Option Span → Range
  | none => ⟨⟨0, 0⟩, ⟨0, 0⟩⟩
  | some s => ⟨toPosition (some s.start), toPosition (some s.stop)⟩

/-- Modelled from the spec (Position Mapper of the missing module
`src/parser/lsp.ts`): the scanning loop of `offsetToPosition`.  It walks the
first `offset` characters; a newline bumps the line and resets the column,
any other character (or a position past the end of the content, which is
deliberately not clamped) bumps the column. -/
def offsetScan : List Char → Nat → Nat → Nat → Pos
  | _, 0, line, chr => ⟨line, chr⟩
  | [], o + 1, line, chr => ⟨line, chr + o + 1⟩
  | c :: cs, o + 1, line, chr =>
    if c = '\n' then offsetScan cs o (line + 1) 0
    else offsetScan cs o line (chr + 1)

/-- Modelled from the spec (Position Mapper of the missing module
`src/parser/lsp.ts`): `offsetToPosition(content, offset, baseLine)` counts
newline characters before `offset`, yielding `baseLine + newlineCount` and a
character offset measured from the preceding newline (or string start). -/
def offsetToPosition (content : String) (offset : Nat) (baseLine : Nat) : Pos :=
  offsetScan content.data offset baseLine 0

/-- Index of the last newline character in a list, if any (specification
device for stating the `offsetToPosition` characterisation). -/
def lastNlIdx : List Char → Option Nat
  | [] => none
  | c :: cs =>
    match lastNlIdx cs with
    | some i => some (i + 1)
    | none => if c = '\n' then some 0 else none

theorem lastNlIdx_eq_none (l : List Char) : lastNlIdx l = none ↔ '\n' ∉ l := by
  induction l with
  | nil => simp [lastNlIdx]
  | cons c cs ih =>
    cases h : lastNlIdx cs with
    | some i =>
      have hmem : '\n' ∈ cs := by
        by_contra hnot
        rw [ih.mpr hnot] at h
        cases h
      simp [lastNlIdx, h, hmem]
    | none =>
      by_cases hc : c = '\n'
      · subst hc; simp [lastNlIdx, h]
      · simp [lastNlIdx, h, hc, ih.mp h, Ne.symm hc]

theorem offsetScan_spec (cs : List Char) (o line chr : Nat) :
    offsetScan cs o line chr =
      match lastNlIdx (cs.take o) with
      | none => ⟨line, chr + o⟩
      | some i => ⟨line + (cs.take o).count '\n', o - (i + 1)⟩ := by
  induction cs generalizing o line chr with
  | nil =>
    cases o with
    | zero => simp [offsetScan, lastNlIdx]
    | succ o => simp [offsetScan, lastNlIdx]; omega
  | cons c cs ih =>
    cases o with
    | zero => simp [offsetScan, lastNlIdx]
    | succ o =>
      by_cases hc : c = '\n'
      · subst hc
        rw [offsetScan]
        simp only [if_pos rfl]
        rw [ih]
        cases h : lastNlIdx (cs.take o) with
        | none =>
          have hcount : (cs.take o).count '\n' = 0 :=
            List.count_eq_zero.mpr ((lastNlIdx_eq_none _).mp h)
          simp [List.take_succ_cons, lastNlIdx, h, hcount, List.count_cons]
        | some i =>
          simp only [List.take_succ_cons, lastNlIdx, h, List.count_cons, if_pos rfl]
          simp
          omega
      · rw [offsetScan]
        simp only [if_neg hc]
        rw [ih]
        cases h : lastNlIdx (cs.take o) with
        | none =>
          simp [List.take_succ_cons, lastNlIdx, h, hc]
          omega
        | some i =>
          simp [List.take_succ_cons, lastNlIdx, h, hc, List.count_cons]

/-- Generic inline AST node of the black-box markdown library: a leaf
carrying a literal value, a node with children, or a node with neither
(breaks, images, horizontal rules, ...). -/
inductive Inline where
  | value (s : String)
  | parent (children : List Inline)
  | void

mutual

/-- Modelled from the spec (Text Extractor of the missing module
`src/parser/lsp.ts`): a leaf returns its literal value, a node with children
returns the direct concatenation of each child's extracted text, a node with
neither returns the empty string. -/
def extractText : Inline → String
  | Inline.value s => s
  | Inline.parent cs => extractTextList cs
  | Inline.void => ""

/-- Direct concatenation (no inserted separators) of the extracted text of a
list of inline nodes. -/
def extractTextList : List Inline → String
  | [] => ""
  | c :: cs => extractText c ++ extractTextList cs

end

/-- Top-level block node of the black-box markdown AST: a heading with a
depth and inline children, a fenced code block with an optional tag and raw
text, or any other block (opaque content).  Position annotations are
optional, as the library may omit them. -/
inductive Block where
  | heading (depth : Nat) (children : List Inline) (span : Option Span)
  | code (lang : Option String) (value : String) (span : Option Span)
  | other (span : Option Span)

/-- CodeBlock of the data model: `{type, lang, content, range, contentRange}`. -/
structure CodeBlock where
  type : String
  lang : String
  content : String
  range : Range
  contentRange : Range
deriving Repr, DecidableEq

/-- Modelled from the spec (Code Block Classifier of the missing module
`src/parser/lsp.ts`): a fenced block whose declared tag has the exact
case-sensitive 7-character marker "resume:" in front yields a CodeBlock whose
`type` is the remainder, whose `lang` is the full tag, and whose
`contentRange.start.line` is `range.start.line + 1` by construction; any
other block (including an untagged one) is ignored. -/
def classifyCode (lang : Option String) (value : String) (span : Option Span) :
    Option CodeBlock :=
  match lang with
  | none => none
  | some l =>
    if l.data.take 7 = "resume:".data then
      let r := toRange span
      some { type := String.mk (l.data.drop 7)
             lang := l
             content := value
             range := r
             contentRange := ⟨⟨r.start.line + 1, 0⟩, ⟨r.stop.line - 1, 0⟩⟩ }
    else none

/-- Classification lifted to top-level blocks: only fenced code nodes can
produce a CodeBlock. -/
def classifyBlock : Block → Option CodeBlock
  | Block.code lang v span => classifyCode lang v span
  | _ => none

/-- Modelled from the spec (Document Assembler of the missing module
`src/parser/lsp.ts`): the document-wide ordered CodeBlock list, collected
from the whole top-level block sequence independent of section membership. -/
def docCodeBlocks (ast : List Block) : List CodeBlock :=
  ast.filterMap classifyBlock

/-- Section usage context, from `src/types/sections.ts` (`SectionUsage`). -/
inductive SectionUsage where
  | cv | rirekisho | both | cover_letter | all
deriving Repr, DecidableEq

/-- Output format, from `src/types/config.ts` (`OutputFormat`). -/
inductive OutputFormat where
  | cv | rirekisho | both | cover_letter
deriving Repr, DecidableEq

/-- Section definition, from `src/types/sections.ts` (`SectionDef`). -/
structure SectionDef where
  id : String
  tags : List String
  usage : SectionUsage
  requiredFor : List OutputFormat
deriving Repr, DecidableEq

/-- The recognized-tag registry, embedded verbatim from
`SECTION_DEFINITIONS` in `src/types/sections.ts`. -/
def SECTION_DEFINITIONS : List SectionDef :=
  [ { id := "summary"
      tags := ["概要", "職務要約", "Summary", "Professional Summary", "Profile",
               "Profile Summary", "Executive Summary"]
      usage := SectionUsage.cv
      requiredFor := [] },
    { id := "education"
      tags := ["学歴", "Education"]
      usage := SectionUsage.both
      requiredFor := [] },
    { id := "experience"
      tags := ["職歴", "職務経歴", "職務履歴", "Experience", "Work Experience",
               "Professional Experience"]
      usage := SectionUsage.both
      requiredFor := [OutputFormat.cv, OutputFormat.rirekisho, OutputFormat.both] },
    { id := "certifications"
      tags := ["免許・資格", "資格", "免許", "Certifications"]
      usage := SectionUsage.both
      requiredFor := [] },
    { id := "motivation"
      tags := ["志望動機", "志望の動機", "Motivation", "Motivation for Applying"]
      usage := SectionUsage.rirekisho
      requiredFor := [] },
    { id := "competencies"
      tags := ["自己PR", "自己pr", "自己ＰＲ", "自己ｐｒ", "Core Competencies",
               "Key Competencies", "Competencies", "Key Highlights", "Superpowers"]
      usage := SectionUsage.both
      requiredFor := [] },
    { id := "notes"
      tags := ["本人希望記入欄", "Notes"]
      usage := SectionUsage.rirekisho
      requiredFor := [] },
    { id := "skills"
      tags := ["スキル", "Skills", "Technical Skills"]
      usage := SectionUsage.both
      requiredFor := [] },
    { id := "languages"
      tags := ["語学", "Languages", "Language Skills"]
      usage := SectionUsage.cv
      requiredFor := [] },
    { id := "cover_letter_body"
      tags := ["Cover Letter", "Body", "Letter"]
      usage := SectionUsage.cover_letter
      requiredFor := [OutputFormat.cover_letter] } ]

/-- Single-character model of JavaScript `toLowerCase`: ASCII A–Z and
full-width Ａ–Ｚ fold by +32 (U+FF21–U+FF3A → U+FF41–U+FF5A, so Ｐ → ｐ as
in JS), and the two compatibility singletons with case mappings fold to
their letters (Kelvin sign U+212A → k, Angstrom sign U+212B → å).  These
are all the Unicode characters whose JS lowercase form is a single
character occurring in a lowercased registry tag (tags hold only ASCII,
spaces, full-width Latin and caseless Japanese); every other JS folding
either leaves the character unchanged or produces characters no tag
contains (combining marks, Greek, Cyrillic, ...), so the matcher built on
this model returns the same result as one built on full JS `toLowerCase`
for every probe string. -/
def jsToLowerChar (c : Char) : Char :=
  if 'A' ≤ c ∧ c ≤ 'Z' then Char.ofNat (c.toNat + 32)
  else if 'Ａ' ≤ c ∧ c ≤ 'Ｚ' then Char.ofNat (c.toNat + 32)
  else if c = 'K' then 'k'
  else if c = 'Å' then 'å'
  else c

/-- Lowercasing of a character sequence, the model of JavaScript
`toLowerCase`. -/
def lowerChars (cs : List Char) : List Char :=
  cs.map jsToLowerChar

/-- The exact character set JavaScript `trim` removes (ECMAScript
WhiteSpace and LineTerminator): TAB, LF, VT, FF, CR, the Unicode
space separators (space, NBSP, Ogham space, U+2000–U+200A, narrow NBSP,
medium mathematical space, ideographic space U+3000), the line and
paragraph separators, and the BOM. -/
def jsWhitespace (c : Char) : Bool :=
  c = '\t' || c = '\n' || c = '\x0b' || c = '\x0c' || c = '\r' ||
  c = ' ' || c = ' ' || c = ' ' ||
  (' ' ≤ c && c ≤ ' ') ||
  c = ' ' || c = ' ' || c = ' ' || c = ' ' ||
  c = '　' || c = '﻿'

/-- Whitespace trimming on both ends of a character sequence, the model of
JavaScript `trim`. -/
def trimChars (cs : List Char) : List Char :=
  ((cs.dropWhile jsWhitespace).reverse.dropWhile jsWhitespace).reverse

/-- Find a section definition by tag, case-insensitively, embedded from
`findSectionByTag` in `src/types/sections.ts`: the probe tag is lowercased
and trimmed, each registry tag is lowercased (not trimmed), and the first
definition holding a matching tag wins. -/
def findSectionByTag (tag : String) : Option SectionDef :=
  let normalizedTag := trimChars (lowerChars tag.data)
  SECTION_DEFINITIONS.find? (fun d =>
    d.tags.any (fun t => lowerChars t.data = normalizedTag))

/-- Lexicographic order on zero-based positions (line first, then
character), used for span containment. -/
def posLe (a b : Pos) : Prop :=
  a.line < b.line ∨ (a.line = b.line ∧ a.character ≤ b.character)

instance (a b : Pos) : Decidable (posLe a b) := by
  unfold posLe; infer_instance

/-- Containment of one range inside another, the "falls within the span"
relation of the Section Segmenter. -/
def rangeWithin (inner outer : Range) : Prop :=
  posLe outer.start inner.start ∧ posLe inner.stop outer.stop

instance (inner outer : Range) : Decidable (rangeWithin inner outer) := by
  unfold rangeWithin; infer_instance

/-- Section of the data model:
`{id, title, titleRange, range, codeBlocks}`. -/
structure Section where
  id : String
  title : String
  titleRange : Range
  range : Range
  codeBlocks : List CodeBlock
deriving Repr, DecidableEq

/-- Modelled from the spec (Section Segmenter of the missing module
`src/parser/lsp.ts`): only top-level (depth-1) heading nodes are section
boundaries; each yields its extracted title and span.  Deeper headings and
all other blocks yield nothing. -/
def headingBoundary : Block → Option (String × Option Span)
  | Block.heading 1 children span => some (extractTextList children, span)
  | _ => none

/-- The ordered list of section boundaries of a document. -/
def sectionBoundaries (ast : List Block) : List (String × Option Span) :=
  ast.filterMap headingBoundary

/-- Start of the next boundary, or the document end when none follows: the
stop position of the section currently being built. -/
def nextStop (docEnd : Pos) : List (String × Option Span) → Pos
  | [] => docEnd
  | (_, span2) :: _ => (toRange span2).start

/-- Modelled from the spec (Section Segmenter of the missing module
`src/parser/lsp.ts`): each boundary whose title resolves in the registry
opens a Section spanning from the heading's start to the start of the next
top-level heading (of any resolution) or document end; an unresolved
boundary and everything until the next boundary is discarded.  Every
document-wide CodeBlock whose span falls inside the section's span is
attached, in order. -/
def buildSections (docEnd : Pos) (blocks : List CodeBlock) :
    List (String × Option Span) → List Section
  | [] => []
  | (title, span) :: rest =>
    match findSectionByTag title with
    | some sd =>
      { id := sd.id
        title := title
        titleRange := toRange span
        range := ⟨(toRange span).start, nextStop docEnd rest⟩
        codeBlocks := blocks.filter
          (fun cb => decide (rangeWithin cb.range
            ⟨(toRange span).start, nextStop docEnd rest⟩)) }
        :: buildSections docEnd blocks rest
    | none => buildSections docEnd blocks rest

/-- MetadataField of the data model: `{key, value, range}` with the value
already string-rendered. -/
structure MetadataField where
  key : String
  value : String
  range : Range
deriving Repr, DecidableEq

/-- Metadata of the data model: ordered fields plus the whole block's range. -/
structure Metadata where
  fields : List MetadataField
  range : Range
deriving Repr, DecidableEq

/-- Failure item of the parse result:
`{source, message, range}` (currently `source` is always "frontmatter"). -/
structure ParseError where
  source : String
  message : String
  range : Range
deriving Repr, DecidableEq

/-- Top-level field as delivered by the black-box structured-data (YAML)
library: key, string-rendered value (absent or explicit-null values render
as the literal "null"), and the value node's optional offset span. -/
structure YamlField where
  key : String
  value : String
  span : Option (Nat × Nat)
deriving Repr, DecidableEq

/-- Failure report of the black-box structured-data library: a message and
the optional offset span of the error location. -/
structure YamlError where
  message : String
  span : Option (Nat × Nat)
deriving Repr, DecidableEq

/-- The black-box structured-data (YAML) library, a parameter of the model:
it maps a metadata-block body to its ordered top-level fields or to a
failure. -/
abbrev YamlParser : Type :=
  String → Except YamlError (List YamlField)

/-- Modelled from the spec (Metadata Block Extractor of the missing module
`src/parser/lsp.ts`): a node's offset span is mapped through the Position
Mapper against the block body; a node without span information degrades to a
zero-width range at the start of the given fallback line. -/
def calculateYamlNodeRange (content : String) (span : Option (Nat × Nat))
    (line : Nat) : Range :=
  match span with
  | none => ⟨⟨line, 0⟩, ⟨line, 0⟩⟩
  | some (s, e) => ⟨offsetToPosition content s line, offsetToPosition content e line⟩

/-- Splitting a character sequence at newline characters, the model of
JavaScript `split('\n')` (an empty input yields one empty line, a trailing
newline yields a trailing empty line). -/
def splitLinesAux : List Char → List Char → List (List Char)
  | [], acc => [acc.reverse]
  | c :: rest, acc =>
    if c = '\n' then acc.reverse :: splitLinesAux rest []
    else splitLinesAux rest (c :: acc)

/-- Lines of a string, in order. -/
def splitLines (s : String) : List (List Char) :=
  splitLinesAux s.data []

/-- Rejoining of lines with newline characters, the model of
JavaScript `join('\n')`. -/
def joinLines : List (List Char) → List Char
  | [] => []
  | [l] => l
  | l :: ls => l ++ '\n' :: joinLines ls

/-- Raw metadata block: the enclosed body text and the whole block's range. -/
structure RawFrontmatter where
  body : String
  blockRange : Range
deriving Repr, DecidableEq

/-- Modelled from the spec (Metadata Block Extractor of the missing module
`src/parser/lsp.ts`): a block is present iff the document's very first line
is exactly three hyphens and a later line of exactly three hyphens closes
it; the body is the text strictly between the two delimiter lines. -/
def detectFrontmatter (input : String) : Option RawFrontmatter :=
  match splitLines input with
  | [] => none
  | first :: rest =>
    if first = "---".data then
      match rest.findIdx? (fun l => l == "---".data) with
      | none => none
      | some j =>
        some { body := String.mk (joinLines (rest.take j))
               blockRange := ⟨⟨0, 0⟩, ⟨j + 1, 3⟩⟩ }
    else none

/-- Modelled from the spec (Metadata Block Extractor of the missing module
`src/parser/lsp.ts`): a field's range comes from its value node's offset
span mapped against the block body (which starts on line 1), falling back to
a zero-width range at the line of the field's ordinal position within the
block. -/
def mkMetadataField (body : String) (idx : Nat) (f : YamlField) : MetadataField :=
  { key := f.key
    value := f.value
    range :=
      match f.span with
      | some sp => calculateYamlNodeRange body (some sp) 1
      | none => calculateYamlNodeRange body none (1 + idx) }

/-- Modelled from the spec (Metadata Block Extractor of the missing module
`src/parser/lsp.ts`): absence of the block yields `none` and never a
failure; a structured-data failure on the body aborts with a single error
tagged "frontmatter" whose range degrades to the whole block's range;
success emits the ordered fields. -/
def extractFrontmatter (yaml : YamlParser) (input : String) :
    Except (List ParseError) (Option Metadata) :=
  match detectFrontmatter input with
  | none => Except.ok none
  | some raw =>
    match yaml raw.body with
    | Except.error e =>
      Except.error
        [{ source := "frontmatter"
           message := e.message
           range :=
             match e.span with
             | some sp => calculateYamlNodeRange raw.body (some sp) 1
             | none => raw.blockRange }]
    | Except.ok fs =>
      Except.ok (some { fields := fs.enum.map (fun p => mkMetadataField raw.body p.1 p.2)
                        range := raw.blockRange })

/-- Document of the data model:
`{metadata, sections, codeBlocks, rawContent}`. -/
structure Document where
  metadata : Option Metadata
  sections : List Section
  codeBlocks : List CodeBlock
  rawContent : String
deriving Repr, DecidableEq

/-- Position of the document's end: line count and trailing character count
of the raw input, through the Position Mapper. -/
def endPosOf (input : String) : Pos :=
  offsetToPosition input input.data.length 0

/-- Modelled from the spec (Document Assembler of the missing module
`src/parser/lsp.ts`, exported as `parseMarkdownWithPositions`): the Metadata
Extractor runs first and a failure short-circuits with the non-empty error
list and nothing else; otherwise the Section Segmenter and Code Block
Classifier run over the black-box AST and the Document is assembled with
`rawContent` the verbatim input.  The black-box markdown AST and
structured-data parser are parameters of the model. -/
def parseMarkdownWithPositions (yaml : YamlParser) (ast : List Block)
    (input : String) : Except (List ParseError) Document :=
  match extractFrontmatter yaml input with
  | Except.error errs => Except.error errs
  | Except.ok fm =>
    let blocks := docCodeBlocks ast
    Except.ok { metadata := fm
                sections := buildSections (endPosOf input) blocks (sectionBoundaries ast)
                codeBlocks := blocks
                rawContent := input }

/-- Calendar date as held by a JavaScript `Date`, restricted to the fields
the rirekisho data module reads (`getFullYear`, `getMonth`, `getDate`);
`month` is the 0-based month index, as in JavaScript. -/
structure JsDate where
  year : Int
  month : Nat
  day : Nat
deriving Repr, DecidableEq

/-- Date comparison; JavaScript compares `Date` values by epoch time, which
for calendar dates coincides with the lexicographic year/month/day order. -/
def JsDate.lt (a b : JsDate) : Bool :=
  if a.year < b.year then true
  else if b.year < a.year then false
  else if a.month < b.month then true
  else if b.month < a.month then false
  else decide (a.day < b.day)

/-- From the rirekisho data module: `formatYearMonth` renders a date's year
and 1-based month as strings. -/
def formatYearMonth (d : JsDate) : String × String :=
  (toString d.year, toString (d.month + 1))

/-- End of a role: either a date or the literal `'present'`
(`end: Date | 'present'` in `src/types/sections.ts`). -/
inductive RoleEnd where
  | present
  | onDate (d : JsDate)
deriving Repr, DecidableEq

/-- Whether a role end is the literal `'present'`. -/
def RoleEnd.isPresent : RoleEnd → Bool
  | RoleEnd.present => true
  | _ => false

/-- RoleEntry of `src/types/sections.ts`, restricted to the fields the data
builder reads.  The source field `end` is a Lean keyword, hence `stop`. -/
structure RoleEntry where
  title : String
  start : JsDate
  stop : RoleEnd
deriving Repr, DecidableEq

/-- ExperienceEntry of `src/types/sections.ts` (company plus roles). -/
structure ExperienceEntry where
  company : String
  roles : List RoleEntry
deriving Repr, DecidableEq

/-- EducationEntry of `src/types/sections.ts`.  `buildHistoryData` guards
`entry.start` and `entry.end` by truthiness, so absent dates are modelled as
`none`. -/
structure EducationEntry where
  school : String
  degree : Option String
  start : Option JsDate
  stop : Option JsDate
deriving Repr, DecidableEq

/-- CertificationEntry of `src/types/sections.ts`; the builder guards
`entry.date` by truthiness. -/
structure CertificationEntry where
  name : String
  date : Option JsDate
deriving Repr, DecidableEq

/-- CompetencyEntry of `src/types/sections.ts` (`{header, description}`). -/
structure CompetencyEntry where
  header : String
  description : String
deriving Repr, DecidableEq

/-- SkillEntry of `src/types/sections.ts`. -/
structure SkillEntry where
  category : String
  items : Option (List String)
  description : Option String
  level : Option String
deriving Repr, DecidableEq

/-- SkillsOptions of `src/types/sections.ts` (`format` is the literal
'grid' or 'categorized'). -/
structure SkillsOptions where
  columns : Nat
  format : String
deriving Repr, DecidableEq

/-- LanguageEntry of `src/types/sections.ts` (`{language, level}`). -/
structure LanguageEntry where
  language : String
  level : String
deriving Repr, DecidableEq

/-- TableRow of `src/types/sections.ts` (`{year, month, content}`). -/
structure TableRow where
  year : String
  month : String
  content : String
deriving Repr, DecidableEq

/-- ContentBlock of `src/types/sections.ts`: the tagged variant union over
markdown and the structured block kinds. -/
inductive ContentBlock where
  | markdown (content : String)
  | education (entries : List EducationEntry)
  | experience (entries : List ExperienceEntry)
  | certifications (entries : List CertificationEntry)
  | skills (entries : List SkillEntry) (options : SkillsOptions)
  | competencies (entries : List CompetencyEntry)
  | languages (entries : List LanguageEntry)
  | table (rows : List TableRow)
deriving Repr, DecidableEq

/-- The `type` discriminator string of a content block, as stored in the
TypeScript tagged union. -/
def ContentBlock.kind : ContentBlock → String
  | ContentBlock.markdown _ => "markdown"
  | ContentBlock.education _ => "education"
  | ContentBlock.experience _ => "experience"
  | ContentBlock.certifications _ => "certifications"
  | ContentBlock.skills _ _ => "skills"
  | ContentBlock.competencies _ => "competencies"
  | ContentBlock.languages _ => "languages"
  | ContentBlock.table _ => "table"

/-- Mixed content part of the legacy section content
(`MixedContentPart` in `src/types/sections.ts`). -/
inductive MixedContentPart where
  | paragraph (text : String)
  | list (items : List String)
deriving Repr, DecidableEq

/-- SectionContent of `src/types/sections.ts`: the legacy variants plus the
composite ordered block sequence. -/
inductive SectionContent where
  | text (text : String)
  | list (items : List String)
  | mixed (parts : List MixedContentPart)
  | education (entries : List EducationEntry)
  | experience (entries : List ExperienceEntry)
  | certifications (entries : List CertificationEntry)
  | skills (entries : List SkillEntry) (options : SkillsOptions)
  | competencies (entries : List CompetencyEntry)
  | languages (entries : List LanguageEntry)
  | table (rows : List TableRow)
  | composite (blocks : List ContentBlock)
deriving Repr, DecidableEq

/-- ParsedSection of `src/types/sections.ts`, restricted to the fields the
data builder reads. -/
structure ParsedSection where
  id : String
  title : String
  content : SectionContent
deriving Repr, DecidableEq

/-- From the rirekisho data module: `extractTableRows` uses only structured
table blocks (the direct `table` variant, or the first `table` block of a
composite), ignoring markdown. -/
def extractTableRows : SectionContent → List TableRow
  | SectionContent.table rows => rows
  | SectionContent.composite blocks =>
    match blocks.find? (fun b => b.kind == "table") with
    | some (ContentBlock.table rows) => rows
    | _ => []
  | _ => []

/-- From the rirekisho data module: `extractEducationEntries` uses only
structured education blocks. -/
def extractEducationEntries : SectionContent → List EducationEntry
  | SectionContent.education entries => entries
  | SectionContent.composite blocks =>
    match blocks.find? (fun b => b.kind == "education") with
    | some (ContentBlock.education entries) => entries
    | _ => []
  | _ => []

/-- From the rirekisho data module: `extractExperienceEntries` uses only
structured experience blocks. -/
def extractExperienceEntries : SectionContent → List ExperienceEntry
  | SectionContent.experience entries => entries
  | SectionContent.composite blocks =>
    match blocks.find? (fun b => b.kind == "experience") with
    | some (ContentBlock.experience entries) => entries
    | _ => []
  | _ => []

/-- Substring test, the model of JavaScript `includes`. -/
def strIncludes (s pat : String) : Bool :=
  decide (2 ≤ (s.splitOn pat).length)

/-- Rows contributed by one education entry: an enrollment (入学) row when a
start date exists and a graduation (卒業/修了) row when an end date exists,
with 修了 chosen for graduate-school degrees (from `educationToTableRows`). -/
def educationEntryRows (e : EducationEntry) : List TableRow :=
  let degreeStr :=
    match e.degree with
    | some dg => if dg = "" then "" else " " ++ dg
    | none => ""
  (match e.start with
   | some d =>
     let f := formatYearMonth d
     [{ year := f.1, month := f.2, content := e.school ++ degreeStr ++ " 入学" }]
   | none => []) ++
  (match e.stop with
   | some d =>
     let f := formatYearMonth d
     let degree := e.degree.getD ""
     let isGraduateSchool := strIncludes degree "修士" || strIncludes degree "博士"
     let suffix := if isGraduateSchool then "修了" else "卒業"
     [{ year := f.1, month := f.2, content := e.school ++ degreeStr ++ " " ++ suffix }]
   | none => [])

/-- From the rirekisho data module: `educationToTableRows`. -/
def educationToTableRows (entries : List EducationEntry) : List TableRow :=
  (entries.map educationEntryRows).flatten

/-- The role with the earliest start date, the `reduce` of
`experienceToTableRows` (reduction without an initial value starts at the
first role). -/
def earliestRole (r : RoleEntry) (rs : List RoleEntry) : RoleEntry :=
  rs.foldl (fun earliest role =>
    if JsDate.lt role.start earliest.start then role else earliest) r

/-- The non-present role with the latest end date, if any, the
`reduce<RoleEntry | null>` of `experienceToTableRows`. -/
def latestEndRole (rs : List RoleEntry) : Option RoleEntry :=
  rs.foldl (fun latest role =>
    match role.stop with
    | RoleEnd.present => latest
    | RoleEnd.onDate d =>
      match latest with
      | none => some role
      | some l =>
        match l.stop with
        | RoleEnd.present => some role
        | RoleEnd.onDate ld => if JsDate.lt ld d then some role else latest) none

/-- Rows contributed by one experience entry: a 入社 row at the earliest
role start, and a 退社 row at the latest role end unless some role is still
ongoing (from `experienceToTableRows`). -/
def experienceEntryRows (e : ExperienceEntry) : List TableRow :=
  match e.roles with
  | [] => []
  | r :: rs =>
    let er := earliestRole r rs
    let f := formatYearMonth er.start
    let entryRow : TableRow := { year := f.1, month := f.2, content := e.company ++ " 入社" }
    let hasOngoingRole := e.roles.any (fun role => role.stop.isPresent)
    if hasOngoingRole then [entryRow]
    else
      match latestEndRole e.roles with
      | some l =>
        match l.stop with
        | RoleEnd.onDate d =>
          let g := formatYearMonth d
          [entryRow, { year := g.1, month := g.2, content := e.company ++ " 退社" }]
        | RoleEnd.present => [entryRow]
      | none => [entryRow]

/-- From the rirekisho data module: `experienceToTableRows`. -/
def experienceToTableRows (entries : List ExperienceEntry) : List TableRow :=
  (entries.map experienceEntryRows).flatten

/-- Accumulation of a digit sequence into a number. -/
def digitsToNat (ds : List Char) : Nat :=
  ds.foldl (fun acc c => acc * 10 + (c.toNat - Char.toNat '0')) 0

/-- Model of JavaScript `parseInt(s, 10) || 0`: leading whitespace and an
optional sign are consumed, then the leading digit run is read; no digits
gives NaN, which `|| 0` turns into 0. -/
def parseIntOr0 (s : String) : Int :=
  match s.data.dropWhile Char.isWhitespace with
  | '-' :: rest =>
    let ds := rest.takeWhile Char.isDigit
    if ds.isEmpty then 0 else -(digitsToNat ds : Int)
  | '+' :: rest =>
    let ds := rest.takeWhile Char.isDigit
    if ds.isEmpty then 0 else (digitsToNat ds : Int)
  | cs =>
    let ds := cs.takeWhile Char.isDigit
    if ds.isEmpty then 0 else (digitsToNat ds : Int)

/-- Sort key of a table row: `year * 100 + month` on the numeric renderings
(from `sortTableRows`). -/
def rowSortKey (r : TableRow) : Int :=
  parseIntOr0 r.year * 100 + parseIntOr0 r.month

/-- ChronologicalOrder of `src/types/config.ts` (`'asc' | 'desc'`). -/
inductive ChronologicalOrder where
  | asc | desc
deriving Repr, DecidableEq

/-- From the rirekisho data module: `sortTableRows` sorts stably by the
numeric year/month key, ascending or descending. -/
def sortTableRows (rows : List TableRow) (order : ChronologicalOrder) :
    List TableRow :=
  rows.mergeSort (fun a b =>
    match order with
    | ChronologicalOrder.asc => decide (rowSortKey a ≤ rowSortKey b)
    | ChronologicalOrder.desc => decide (rowSortKey b ≤ rowSortKey a))

/-- History row of the rirekisho generator (`HistoryRow`, a
`[year, month, content]` string triple). -/
abbrev HistoryRow : Type := String × String × String

/-- Content cell of a history row (index 2 of the triple). -/
def HistoryRow.content (r : HistoryRow) : String := r.2.2

/-- The closing lines of `buildHistoryData`: a 現在に至る row and a 以上 row
are each appended at the end when no row with that content is present yet. -/
def appendClosingRows (rows : List HistoryRow) : List HistoryRow :=
  let rows1 :=
    if rows.any (fun r => r.content == "現在に至る") then rows
    else rows ++ [(("", "", "現在に至る") : HistoryRow)]
  if rows1.any (fun r => r.content == "以上") then rows1
  else rows1 ++ [(("", "", "以上") : HistoryRow)]

/-- Embedded from `buildHistoryData` of the rirekisho data module: the 学歴
block (a header row plus sorted education rows, from structured entries when
present, otherwise table rows), then the 職歴 block likewise, then the
closing 現在に至る and 以上 rows. -/
def buildHistoryData (sections : List ParsedSection) (order : ChronologicalOrder) :
    List HistoryRow :=
  let eduRows : List HistoryRow :=
    match sections.find? (fun s => s.id == "education") with
    | some edu =>
      let eduEntries := extractEducationEntries edu.content
      let tableRows := extractTableRows edu.content
      if eduEntries.length > 0 ∨ tableRows.length > 0 then
        let dataRows :=
          if eduEntries.length > 0 then educationToTableRows eduEntries else tableRows
        let dataRows := sortTableRows dataRows order
        (("", "", "学歴") : HistoryRow) :: dataRows.map (fun r => (r.year, r.month, r.content))
      else []
    | none => []
  let workRows : List HistoryRow :=
    match sections.find? (fun s => s.id == "experience") with
    | some work =>
      let expEntries := extractExperienceEntries work.content
      let tableRows := extractTableRows work.content
      if expEntries.length > 0 ∨ tableRows.length > 0 then
        let dataRows :=
          if expEntries.length > 0 then experienceToTableRows expEntries else tableRows
        let dataRows := sortTableRows dataRows order
        (("", "", "職歴") : HistoryRow) :: dataRows.map (fun r => (r.year, r.month, r.content))
      else []
    | none => []
  appendClosingRows (eduRows ++ workRows)

/-- Concrete structured-data stub that accepts every body with zero fields
(used to instantiate the black-box parameter on concrete inputs). -/
def yamlOkW : YamlParser := fun _ => Except.ok []

/-- Concrete structured-data stub that rejects every body without a reported
location (used to instantiate the black-box parameter on concrete inputs). -/
def yamlErrW : YamlParser := fun _ => Except.error { message := "bad", span := none }

/-- Concrete two-node AST: a recognized depth-1 heading and a tagged fenced
block, with the 1-based spans the markdown library would report for
`inputW`. -/
def astW : List Block :=
  [Block.heading 1 [Inline.value "Experience"] (some ⟨⟨1, 1⟩, ⟨1, 13⟩⟩),
   Block.code (some "resume:experience") "company: A" (some ⟨⟨3, 1⟩, ⟨5, 4⟩⟩)]

/-- Concrete raw document matching `astW`. -/
def inputW : String := "# Experience\n\n```resume:experience\ncompany: A\n```"

/-- The CodeBlock the classifier produces for the fenced block of `astW`. -/
def cbW : CodeBlock :=
  { type := "experience"
    lang := "resume:experience"
    content := "company: A"
    range := ⟨⟨2, 0⟩, ⟨4, 3⟩⟩
    contentRange := ⟨⟨3, 0⟩, ⟨3, 0⟩⟩ }

/-- The Section the segmenter produces for the heading of `astW`. -/
def secW : Section :=
  { id := "experience"
    title := "Experience"
    titleRange := ⟨⟨0, 0⟩, ⟨0, 12⟩⟩
    range := ⟨⟨0, 0⟩, ⟨4, 3⟩⟩
    codeBlocks := [cbW] }

/-- The Document produced for `inputW` with `astW` and `yamlOkW`. -/
def docW : Document :=
  { metadata := none
    sections := [secW]
    codeBlocks := [cbW]
    rawContent := inputW }

/-- The Document produced for the metadata-free input "hello". -/
def docHelloW : Document :=
  { metadata := none, sections := [], codeBlocks := [], rawContent := "hello" }

/-- The Metadata produced for the empty metadata block. -/
def fmW : Metadata :=
  { fields := [], range := ⟨⟨0, 0⟩, ⟨1, 3⟩⟩ }

/-- The Document produced for the two-delimiter input. -/
def docFmW : Document :=
  { metadata := some fmW, sections := [], codeBlocks := [], rawContent := "---\n---\n" }

/-- Concrete document whose metadata block holds an unclosed double-quoted
scalar, the structured-data failure scenario of the test suite. -/
def input1W : String := "---\nname: \"unclosed\n---"

/-- The error the extractor emits for `input1W` under `yamlErrW`. -/
def errW : ParseError :=
  { source := "frontmatter", message := "bad", range := ⟨⟨0, 0⟩, ⟨2, 3⟩⟩ }

/-- The head section the segmenter produces for a recognized boundary
followed by an unrecognized one, both without spans. -/
def secXW : Section :=
  { id := "experience"
    title := "Experience"
    titleRange := ⟨⟨0, 0⟩, ⟨0, 0⟩⟩
    range := ⟨⟨0, 0⟩, ⟨0, 0⟩⟩
    codeBlocks := [] }

theorem parse_eq_ok {yaml : YamlParser} {ast : List Block} {input : String}
    {d : Document} (h : parseMarkdownWithPositions yaml ast input = Except.ok d) :
    d.codeBlocks = docCodeBlocks ast ∧
    d.sections = buildSections (endPosOf input) (docCodeBlocks ast) (sectionBoundaries ast) ∧
    d.rawContent = input ∧
    extractFrontmatter yaml input = Except.ok d.metadata := by
  unfold parseMarkdownWithPositions at h
  cases hf : extractFrontmatter yaml input with
  | error errs => rw [hf] at h; cases h
  | ok fm =>
    rw [hf] at h
    injection h with h
    subst h
    exact ⟨rfl, rfl, rfl, rfl⟩

theorem classifyCode_eq_some {lang : Option String} {v : String} {sp : Option Span}
    {cb : CodeBlock} (h : classifyCode lang v sp = some cb) :
    lang = some cb.lang ∧
    cb.lang.data.take 7 = "resume:".data ∧
    cb.type = String.mk (cb.lang.data.drop 7) ∧
    cb.content = v ∧
    cb.range = toRange sp ∧
    cb.contentRange =
      ⟨⟨(toRange sp).start.line + 1, 0⟩, ⟨(toRange sp).stop.line - 1, 0⟩⟩ := by
  cases lang with
  | none => cases h
  | some l =>
    by_cases h7 : l.data.take 7 = "resume:".data
    · simp only [classifyCode, if_pos h7] at h
      injection h with h
      subst h
      exact ⟨rfl, h7, rfl, rfl, rfl, rfl⟩
    · simp only [classifyCode, if_neg h7] at h
      cases h

theorem mem_buildSections_codeBlocks {docEnd : Pos} {blocks : List CodeBlock}
    {bs : List (String × Option Span)} {s : Section}
    (h : s ∈ buildSections docEnd blocks bs) :
    ∀ cb ∈ s.codeBlocks, cb ∈ blocks ∧ rangeWithin cb.range s.range := by
  induction bs with
  | nil => simp [buildSections] at h
  | cons hd rest ih =>
    obtain ⟨t, sp⟩ := hd
    rw [buildSections] at h
    cases hf : findSectionByTag t with
    | some sd =>
      rw [hf] at h
      rcases List.mem_cons.mp h with hs | hs
      · subst hs
        intro cb hcb
        rcases List.mem_filter.mp hcb with ⟨hmem, hdec⟩
        exact ⟨hmem, of_decide_eq_true hdec⟩
      · exact ih hs
    | none =>
      rw [hf] at h
      exact ih h

/-- C8: `toPosition` maps `undefined` (here `none`) to the position (0,0)
and maps a point `{line, column}` to (line−1, column−1); the returned line
and character live in `Nat`, whose truncated subtraction makes them never
negative by construction. -/
theorem c8_toPosition_maps_points :
    toPosition none = ⟨0, 0⟩ ∧
    ∀ p : Point, toPosition (some p) = ⟨p.line - 1, p.column - 1⟩ :=
  ⟨rfl, fun _ => rfl⟩

/-- C9: `offsetToPosition` returns a line equal to `baseLine` plus the
number of newline characters in the content preceding the offset, and a
character equal to the distance from the last preceding newline (or from the
start of the string when there is none).  The equations hold for every
offset, including offsets greater than the content length, which are not
clamped: past the end no further newlines occur, so the character keeps
growing with the offset. -/
theorem c9_offsetToPosition_counts_newlines (content : String) (offset baseLine : Nat) :
    (offsetToPosition content offset baseLine).line =
      baseLine + (content.data.take offset).count '\n' ∧
    (offsetToPosition content offset baseLine).character =
      (match lastNlIdx (content.data.take offset) with
       | none => offset
       | some i => offset - (i + 1)) := by
  unfold offsetToPosition
  rw [offsetScan_spec]
  cases h : lastNlIdx (content.data.take offset) with
  | none =>
    have hc : (content.data.take offset).count '\n' = 0 :=
      List.count_eq_zero.mpr ((lastNlIdx_eq_none _).mp h)
    simp [hc]
  | some i => simp

/-- C2: whenever the parse operation succeeds, the `rawContent` field of the
returned Document is exactly the input string. -/
theorem c2_rawContent_identity (yaml : YamlParser) (ast : List Block)
    (input : String) (d : Document)
    (h : parseMarkdownWithPositions yaml ast input = Except.ok d) :
    d.rawContent = input :=
  (parse_eq_ok h).2.2.1

/-- Witness for C2 at a concrete input: the metadata-free document "hello"
parses successfully and its `rawContent` is "hello". -/
theorem c2_rawContent_identity_witness :
    parseMarkdownWithPositions yamlOkW [] "hello" = Except.ok docHelloW ∧
    docHelloW.rawContent = "hello" :=
  ⟨rfl, c2_rawContent_identity yamlOkW [] "hello" docHelloW rfl⟩

theorem appendClosingRows_complete (l : List HistoryRow) :
    (∃ r ∈ appendClosingRows l, HistoryRow.content r = "現在に至る") ∧
    (∃ r ∈ appendClosingRows l, HistoryRow.content r = "以上") := by
  unfold appendClosingRows
  by_cases h1 : l.any (fun r => HistoryRow.content r == "現在に至る") = true
  · simp only [if_pos h1]
    constructor
    · rcases List.any_eq_true.mp h1 with ⟨r, hr, hbeq⟩
      have hr' : HistoryRow.content r = "現在に至る" := by simpa using hbeq
      by_cases h2 : l.any (fun r => HistoryRow.content r == "以上") = true
      · rw [if_pos h2]; exact ⟨r, hr, hr'⟩
      · rw [if_neg h2]; exact ⟨r, List.mem_append_left _ hr, hr'⟩
    · by_cases h2 : l.any (fun r => HistoryRow.content r == "以上") = true
      · rw [if_pos h2]
        rcases List.any_eq_true.mp h2 with ⟨r, hr, hbeq⟩
        exact ⟨r, hr, by simpa using hbeq⟩
      · rw [if_neg h2]
        exact ⟨("", "", "以上"), List.mem_append_right _ (by simp), rfl⟩
  · simp only [if_neg h1]
    constructor
    · by_cases h2 : (l ++ [(("", "", "現在に至る") : HistoryRow)]).any
          (fun r => HistoryRow.content r == "以上") = true
      · rw [if_pos h2]
        exact ⟨("", "", "現在に至る"), List.mem_append_right _ (by simp), rfl⟩
      · rw [if_neg h2]
        exact ⟨("", "", "現在に至る"),
          List.mem_append_left _ (List.mem_append_right _ (by simp)), rfl⟩
    · by_cases h2 : (l ++ [(("", "", "現在に至る") : HistoryRow)]).any
          (fun r => HistoryRow.content r == "以上") = true
      · rw [if_pos h2]
        rcases List.any_eq_true.mp h2 with ⟨r, hr, hbeq⟩
        exact ⟨r, hr, by simpa using hbeq⟩
      · rw [if_neg h2]
        exact ⟨("", "", "以上"), List.mem_append_right _ (by simp), rfl⟩

/-- C10: for every section list and chronological order, the row list
returned by `buildHistoryData` contains a row whose content is 現在に至る
and a row whose content is 以上 (each appended at the end when not already
present), so the result is never empty. -/
theorem c10_buildHistoryData_closing_rows (sections : List ParsedSection)
    (order : ChronologicalOrder) :
    (∃ r ∈ buildHistoryData sections order, HistoryRow.content r = "現在に至る") ∧
    (∃ r ∈ buildHistoryData sections order, HistoryRow.content r = "以上") ∧
    buildHistoryData sections order ≠ [] := by
  obtain ⟨l, hl⟩ : ∃ l, buildHistoryData sections order = appendClosingRows l := ⟨_, rfl⟩
  rw [hl]
  rcases appendClosingRows_complete l with ⟨h1, h2⟩
  rcases h1 with ⟨r, hr, hr'⟩
  exact ⟨⟨r, hr, hr'⟩, h2, List.ne_nil_of_mem hr⟩

/-- C1: when the metadata block is present but the structured-data parser
fails on its body, the parse operation returns a failure whose error list is
non-empty and whose first error has source "frontmatter".  The result type
is an `Except`, so the failure carries no Document value alongside the
errors: success and failure are mutually exclusive and atomic. -/
theorem c1_frontmatter_failure_aborts (yaml : YamlParser) (ast : List Block)
    (input : String) (raw : RawFrontmatter) (e : YamlError)
    (hdet : detectFrontmatter input = some raw)
    (hyaml : yaml raw.body = Except.error e) :
    (parseMarkdownWithPositions yaml ast input).isOk = false ∧
    ∀ errs, parseMarkdownWithPositions yaml ast input = Except.error errs →
      errs ≠ [] ∧ ∀ f, errs.head? = some f → f.source = "frontmatter" := by
  have hext : extractFrontmatter yaml input =
      Except.error
        [{ source := "frontmatter"
           message := e.message
           range :=
             match e.span with
             | some sp => calculateYamlNodeRange raw.body (some sp) 1
             | none => raw.blockRange }] := by
    unfold extractFrontmatter
    simp only [hdet, hyaml]
  have hparse : parseMarkdownWithPositions yaml ast input =
      Except.error
        [{ source := "frontmatter"
           message := e.message
           range :=
             match e.span with
             | some sp => calculateYamlNodeRange raw.body (some sp) 1
             | none => raw.blockRange }] := by
    unfold parseMarkdownWithPositions
    simp only [hext]
  constructor
  · rw [hparse]; rfl
  · intro errs herrs
    rw [hparse] at herrs
    injection herrs with herrs
    constructor
    · rw [← herrs]
      exact List.cons_ne_nil _ _
    · intro f hf
      rw [← herrs] at hf
      simp only [List.head?_cons, Option.some.injEq] at hf
      rw [← hf]

/-- Witness for C1 at a concrete input: on the unclosed-scalar metadata body
with a rejecting structured-data stub, the parse fails, the error list is
the non-empty `[errW]`, and the first error's source is "frontmatter". -/
theorem c1_frontmatter_failure_aborts_witness :
    detectFrontmatter input1W =
      some { body := "name: \"unclosed", blockRange := ⟨⟨0, 0⟩, ⟨2, 3⟩⟩ } ∧
    (parseMarkdownWithPositions yamlErrW [] input1W).isOk = false ∧
    ([errW] : List ParseError) ≠ [] ∧
    errW.source = "frontmatter" := by
  have hdet : detectFrontmatter input1W =
      some { body := "name: \"unclosed", blockRange := ⟨⟨0, 0⟩, ⟨2, 3⟩⟩ } := by decide
  have h := c1_frontmatter_failure_aborts yamlErrW [] input1W _ _ hdet rfl
  exact ⟨hdet, h.1, (h.2 [errW] rfl).1, (h.2 [errW] rfl).2 errW rfl⟩

/-- C6: a document that does not begin with a line of exactly three hyphens
parses successfully with `metadata = none` (absence of the block alone never
causes failure); and the input of an opening and an immediately following
closing delimiter line yields non-null metadata with an empty field list,
given that the black-box structured-data parser yields zero fields on the
empty body. -/
theorem c6_metadata_absence_and_empty_block (yaml : YamlParser) (ast : List Block) :
    (∀ input : String, (splitLines input).head? ≠ some ("---".data) →
      (parseMarkdownWithPositions yaml ast input).isOk = true ∧
      ∀ d, parseMarkdownWithPositions yaml ast input = Except.ok d → d.metadata = none) ∧
    (yaml "" = Except.ok [] →
      (parseMarkdownWithPositions yaml ast "---\n---\n").isOk = true ∧
      ∀ d, parseMarkdownWithPositions yaml ast "---\n---\n" = Except.ok d →
        d.metadata ≠ none ∧ ∀ fm, d.metadata = some fm → fm.fields = []) := by
  constructor
  · intro input hno
    have hdet : detectFrontmatter input = none := by
      unfold detectFrontmatter
      cases hsl : splitLines input with
      | nil => rfl
      | cons first rest =>
        have hne : first ≠ "---".data := by
          intro heq
          exact hno (by rw [hsl, heq]; rfl)
        simp only [if_neg hne]
    have hext : extractFrontmatter yaml input = Except.ok none := by
      unfold extractFrontmatter
      simp only [hdet]
    have hparse : parseMarkdownWithPositions yaml ast input = Except.ok
        { metadata := none
          sections := buildSections (endPosOf input) (docCodeBlocks ast) (sectionBoundaries ast)
          codeBlocks := docCodeBlocks ast
          rawContent := input } := by
      unfold parseMarkdownWithPositions
      simp only [hext]
    refine ⟨by rw [hparse]; rfl, ?_⟩
    intro d hd
    rw [hparse] at hd
    injection hd with hd
    rw [← hd]
  · intro hy
    have hdet : detectFrontmatter "---\n---\n" =
        some { body := "", blockRange := ⟨⟨0, 0⟩, ⟨1, 3⟩⟩ } := by decide
    have hext : extractFrontmatter yaml "---\n---\n" =
        Except.ok (some { fields := [], range := ⟨⟨0, 0⟩, ⟨1, 3⟩⟩ }) := by
      unfold extractFrontmatter
      simp only [hdet, hy, List.enum_nil, List.map_nil]
    have hparse : parseMarkdownWithPositions yaml ast "---\n---\n" = Except.ok
        { metadata := some { fields := [], range := ⟨⟨0, 0⟩, ⟨1, 3⟩⟩ }
          sections := buildSections (endPosOf "---\n---\n") (docCodeBlocks ast)
            (sectionBoundaries ast)
          codeBlocks := docCodeBlocks ast
          rawContent := "---\n---\n" } := by
      unfold parseMarkdownWithPositions
      simp only [hext]
    refine ⟨by rw [hparse]; rfl, ?_⟩
    intro d hd
    rw [hparse] at hd
    injection hd with hd
    rw [← hd]
    refine ⟨by simp, ?_⟩
    intro fm hfm
    simp only [Option.some.injEq] at hfm
    rw [← hfm]

/-- Witness for C6 at concrete inputs: "hello" has no leading delimiter and
parses with null metadata; the two-delimiter input parses with non-null,
zero-field metadata under the zero-field structured-data stub. -/
theorem c6_metadata_absence_and_empty_block_witness :
    (splitLines "hello").head? ≠ some ("---".data) ∧
    (parseMarkdownWithPositions yamlOkW [] "hello").isOk = true ∧
    docHelloW.metadata = none ∧
    yamlOkW "" = Except.ok [] ∧
    (parseMarkdownWithPositions yamlOkW [] "---\n---\n").isOk = true ∧
    docFmW.metadata ≠ none ∧
    fmW.fields = [] := by
  have hno : (splitLines "hello").head? ≠ some ("---".data) := by decide
  have h1 := (c6_metadata_absence_and_empty_block yamlOkW []).1 "hello" hno
  have h2 := (c6_metadata_absence_and_empty_block yamlOkW []).2 rfl
  have hd1 : parseMarkdownWithPositions yamlOkW [] "hello" = Except.ok docHelloW := rfl
  have hd2 : parseMarkdownWithPositions yamlOkW [] "---\n---\n" = Except.ok docFmW := rfl
  exact ⟨hno, h1.1, h1.2 docHelloW hd1, rfl, h2.1, (h2.2 docFmW hd2).1,
    (h2.2 docFmW hd2).2 fmW rfl⟩

theorem mem_parse_codeBlocks {yaml : YamlParser} {ast : List Block} {input : String}
    {d : Document} {cb : CodeBlock}
    (h : parseMarkdownWithPositions yaml ast input = Except.ok d)
    (hmem : cb ∈ d.codeBlocks ∨ ∃ s ∈ d.sections, cb ∈ s.codeBlocks) :
    cb ∈ docCodeBlocks ast := by
  obtain ⟨hcb, hsec, -, -⟩ := parse_eq_ok h
  rcases hmem with hm | ⟨s, hs, hcbs⟩
  · rw [hcb] at hm; exact hm
  · rw [hsec] at hs
    exact (mem_buildSections_codeBlocks hs cb hcbs).1

theorem mem_docCodeBlocks_spec {ast : List Block} {cb : CodeBlock}
    (h : cb ∈ docCodeBlocks ast) :
    cb.lang.data.take 7 = "resume:".data ∧
    cb.type = String.mk (cb.lang.data.drop 7) ∧
    cb.contentRange.start.line = cb.range.start.line + 1 := by
  rcases List.mem_filterMap.mp h with ⟨b, hb, hcls⟩
  cases b with
  | heading depth children sp => simp [classifyBlock] at hcls
  | other sp => simp [classifyBlock] at hcls
  | code lang v sp =>
    have hcode : classifyCode lang v sp = some cb := hcls
    rcases classifyCode_eq_some hcode with ⟨-, h7, hty, -, hr, hcr⟩
    refine ⟨h7, hty, ?_⟩
    rw [hcr, hr]

/-- C3: every CodeBlock the parse operation produces, in the document-wide
list or in any section's list, satisfies
`contentRange.start.line = range.start.line + 1`. -/
theorem c3_contentRange_starts_below_fence (yaml : YamlParser) (ast : List Block)
    (input : String) (d : Document) (cb : CodeBlock)
    (h : parseMarkdownWithPositions yaml ast input = Except.ok d)
    (hmem : cb ∈ d.codeBlocks ∨ ∃ s ∈ d.sections, cb ∈ s.codeBlocks) :
    cb.contentRange.start.line = cb.range.start.line + 1 :=
  (mem_docCodeBlocks_spec (mem_parse_codeBlocks h hmem)).2.2

/-- Witness for C3 at a concrete input: the code block parsed from `inputW`
has its content range starting one line below its fence. -/
theorem c3_contentRange_starts_below_fence_witness :
    parseMarkdownWithPositions yamlOkW astW inputW = Except.ok docW ∧
    cbW ∈ docW.codeBlocks ∧
    cbW.contentRange.start.line = cbW.range.start.line + 1 := by
  have hp : parseMarkdownWithPositions yamlOkW astW inputW = Except.ok docW := rfl
  have hm : cbW ∈ docW.codeBlocks := by decide
  exact ⟨hp, hm,
    c3_contentRange_starts_below_fence yamlOkW astW inputW docW cbW hp (Or.inl hm)⟩

/-- C7: a CodeBlock appears in a Section's list only if its span falls
within that section's span, and every block the classifier accepts appears
in the document-wide list whether or not it lies inside any recognized
section. -/
theorem c7_codeblock_containment (yaml : YamlParser) (ast : List Block)
    (input : String) (d : Document)
    (h : parseMarkdownWithPositions yaml ast input = Except.ok d) :
    (∀ s ∈ d.sections, ∀ cb ∈ s.codeBlocks,
      rangeWithin cb.range s.range ∧ cb ∈ d.codeBlocks) ∧
    (∀ b ∈ ast, ∀ cb, classifyBlock b = some cb → cb ∈ d.codeBlocks) := by
  obtain ⟨hcb, hsec, -, -⟩ := parse_eq_ok h
  constructor
  · intro s hs cb hcbs
    rw [hsec] at hs
    have hin := mem_buildSections_codeBlocks hs cb hcbs
    exact ⟨hin.2, by rw [hcb]; exact hin.1⟩
  · intro b hb cb hcls
    rw [hcb]
    exact List.mem_filterMap.mpr ⟨b, hb, hcls⟩

/-- Witness for C7 at a concrete input: the code block of `inputW` lies
within the experience section's span and is in the document-wide list. -/
theorem c7_codeblock_containment_witness :
    parseMarkdownWithPositions yamlOkW astW inputW = Except.ok docW ∧
    rangeWithin cbW.range secW.range ∧
    cbW ∈ docW.codeBlocks := by
  have hp : parseMarkdownWithPositions yamlOkW astW inputW = Except.ok docW := rfl
  have h := c7_codeblock_containment yamlOkW astW inputW docW hp
  have hs : secW ∈ docW.sections := by decide
  have hcbs : cbW ∈ secW.codeBlocks := by decide
  rcases h.1 secW hs cbW hcbs with ⟨hw, hm⟩
  exact ⟨hp, hw, hm⟩

/-- C5: a fenced block whose tag has the exact case-sensitive 7-character
marker "resume:" in front is classified into a CodeBlock whose `type` is the
(possibly empty) remainder and whose `lang` is the full tag; a tag without
the marker, or an absent tag, classifies to nothing, and every CodeBlock in
any output list of a successful parse carries the marker. -/
theorem c5_resume_tag_classification :
    (∀ (suffix v : String) (sp : Option Span),
      classifyCode (some ("resume:" ++ suffix)) v sp =
        some { type := suffix
               lang := "resume:" ++ suffix
               content := v
               range := toRange sp
               contentRange := ⟨⟨(toRange sp).start.line + 1, 0⟩,
                                ⟨(toRange sp).stop.line - 1, 0⟩⟩ }) ∧
    (∀ (l v : String) (sp : Option Span), l.data.take 7 ≠ "resume:".data →
      classifyCode (some l) v sp = none) ∧
    (∀ (v : String) (sp : Option Span), classifyCode none v sp = none) ∧
    (∀ (yaml : YamlParser) (ast : List Block) (input : String) (d : Document)
       (cb : CodeBlock), parseMarkdownWithPositions yaml ast input = Except.ok d →
      (cb ∈ d.codeBlocks ∨ ∃ s ∈ d.sections, cb ∈ s.codeBlocks) →
      cb.lang.data.take 7 = "resume:".data ∧
      cb.type = String.mk (cb.lang.data.drop 7)) ∧
    (∀ (yaml : YamlParser) (ast : List Block) (input : String) (d : Document)
       (l v : String) (sp : Option Span),
      parseMarkdownWithPositions yaml ast input = Except.ok d →
      Block.code (some l) v sp ∈ ast →
      l.data.take 7 = "resume:".data →
      ∃ cb ∈ d.codeBlocks, cb.lang = l ∧ cb.type = String.mk (l.data.drop 7) ∧
        cb.content = v) := by
  have hlen : ("resume:".data).length = 7 := rfl
  refine ⟨?_, ?_, ?_, ?_, ?_⟩
  · intro suffix v sp
    have h7 : ("resume:" ++ suffix).data.take 7 = "resume:".data := by
      rw [String.data_append, ← hlen, List.take_left]
    have hdp : ("resume:" ++ suffix).data.drop 7 = suffix.data := by
      rw [String.data_append, ← hlen, List.drop_left]
    simp only [classifyCode, if_pos h7, hdp]
  · intro l v sp h7
    simp only [classifyCode, if_neg h7]
  · intro v sp
    rfl
  · intro yaml ast input d cb h hmem
    have hspec := mem_docCodeBlocks_spec (mem_parse_codeBlocks h hmem)
    exact ⟨hspec.1, hspec.2.1⟩
  · intro yaml ast input d l v sp h hb h7
    obtain ⟨hcb, -, -, -⟩ := parse_eq_ok h
    have hcls : classifyCode (some l) v sp =
        some { type := String.mk (l.data.drop 7)
               lang := l
               content := v
               range := toRange sp
               contentRange := ⟨⟨(toRange sp).start.line + 1, 0⟩,
                                ⟨(toRange sp).stop.line - 1, 0⟩⟩ } := by
      simp only [classifyCode, if_pos h7]
    rw [hcb]
    exact ⟨_, List.mem_filterMap.mpr ⟨_, hb, hcls⟩, rfl, rfl, rfl⟩

/-- Witness for C5 at concrete tags: "resume:skills" classifies with type
"skills", "javascript" and the absent tag classify to nothing, and the
emitted block of `inputW` carries the marker. -/
theorem c5_resume_tag_classification_witness :
    classifyCode (some ("resume:" ++ "skills")) "- JavaScript" none =
      some { type := "skills"
             lang := "resume:" ++ "skills"
             content := "- JavaScript"
             range := toRange none
             contentRange := ⟨⟨(toRange none).start.line + 1, 0⟩,
                              ⟨(toRange none).stop.line - 1, 0⟩⟩ } ∧
    "javascript".data.take 7 ≠ "resume:".data ∧
    classifyCode (some "javascript") "x" none = none ∧
    classifyCode none "x" none = none ∧
    cbW.lang.data.take 7 = "resume:".data := by
  have hne : "javascript".data.take 7 ≠ "resume:".data := by decide
  have hp : parseMarkdownWithPositions yamlOkW astW inputW = Except.ok docW := rfl
  have hm : cbW ∈ docW.codeBlocks := by decide
  exact ⟨c5_resume_tag_classification.1 "skills" "- JavaScript" none, hne,
    c5_resume_tag_classification.2.1 "javascript" "x" none hne,
    c5_resume_tag_classification.2.2.1 "x" none,
    (c5_resume_tag_classification.2.2.2.1 yamlOkW astW inputW docW cbW hp
      (Or.inl hm)).1⟩

/-- C4: a top-level heading whose title does not resolve in the
recognized-tag registry produces no Section and contributes nothing to the
segmentation (so the discarded content is attached to neither neighbour: the
remaining sections are exactly those of the remaining boundaries, and the
preceding section's span always stops at the next boundary's start, whatever
its resolution); and only depth-1 heading nodes are section boundaries —
deeper headings yield no boundary and leave the boundary list unchanged. -/
theorem c4_unrecognized_headings_discarded :
    (∀ (docEnd : Pos) (cbs : List CodeBlock) (t : String) (sp : Option Span)
       (rest : List (String × Option Span)), findSectionByTag t = none →
      buildSections docEnd cbs ((t, sp) :: rest) = buildSections docEnd cbs rest) ∧
    (∀ (depth : Nat) (ch : List Inline) (sp : Option Span), depth ≠ 1 →
      headingBoundary (Block.heading depth ch sp) = none) ∧
    (∀ (pre post : List Block) (depth : Nat) (ch : List Inline) (sp : Option Span),
      depth ≠ 1 →
      sectionBoundaries (pre ++ Block.heading depth ch sp :: post) =
        sectionBoundaries (pre ++ post)) ∧
    (∀ (docEnd : Pos) (cbs : List CodeBlock) (t : String) (sp : Option Span)
       (t2 : String) (sp2 : Option Span) (rest : List (String × Option Span))
       (s : Section),
      s ∈ buildSections docEnd cbs ((t, sp) :: (t2, sp2) :: rest) →
      s.range.stop = (toRange sp2).start ∨
        s ∈ buildSections docEnd cbs ((t2, sp2) :: rest)) := by
  have hdeep : ∀ (depth : Nat) (ch : List Inline) (sp : Option Span), depth ≠ 1 →
      headingBoundary (Block.heading depth ch sp) = none := by
    intro depth ch sp hd
    cases depth with
    | zero => rfl
    | succ n =>
      cases n with
      | zero => exact absurd rfl hd
      | succ m => rfl
  refine ⟨?_, hdeep, ?_, ?_⟩
  · intro docEnd cbs t sp rest hf
    simp only [buildSections, hf]
  · intro pre post depth ch sp hd
    simp only [sectionBoundaries, List.filterMap_append, List.filterMap_cons,
      hdeep depth ch sp hd]
  · intro docEnd cbs t sp t2 sp2 rest s hs
    rw [buildSections] at hs
    cases hf : findSectionByTag t with
    | some sd =>
      rw [hf] at hs
      rcases List.mem_cons.mp hs with hseq | hstail
      · exact Or.inl (by rw [hseq]; rfl)
      · exact Or.inr hstail
    | none =>
      rw [hf] at hs
      exact Or.inr hs

/-- Witness for C4 at concrete boundaries: the unrecognized title "Unknown
Section" resolves to nothing and is discarded from the segmentation, a
depth-2 heading is no boundary and leaves the boundary list unchanged, and
the section ahead of a following boundary stops at that boundary's start. -/
theorem c4_unrecognized_headings_discarded_witness :
    findSectionByTag "Unknown Section" = none ∧
    buildSections ⟨9, 9⟩ [] [("Unknown Section", none)] = buildSections ⟨9, 9⟩ [] [] ∧
    headingBoundary (Block.heading 2 [Inline.value "Experience"] none) = none ∧
    sectionBoundaries ([] ++ Block.heading 2 [Inline.value "Experience"] none :: []) =
      sectionBoundaries ([] ++ []) ∧
    (secXW.range.stop = (toRange none).start ∨
      secXW ∈ buildSections ⟨9, 9⟩ [] [("Unknown Section", none)]) := by
  have hf : findSectionByTag "Unknown Section" = none := by decide
  have hmem : secXW ∈
      buildSections ⟨9, 9⟩ [] [("Experience", none), ("Unknown Section", none)] := by
    decide
  exact ⟨hf,
    c4_unrecognized_headings_discarded.1 ⟨9, 9⟩ [] "Unknown Section" none [] hf,
    c4_unrecognized_headings_discarded.2.1 2 [Inline.value "Experience"] none (by decide),
    c4_unrecognized_headings_discarded.2.2.1 [] [] 2 [Inline.value "Experience"] none
      (by decide),
    c4_unrecognized_headings_discarded.2.2.2 ⟨9, 9⟩ [] "Experience" none
      "Unknown Section" none [] secXW hmem⟩

end Md2cv
